import Mathlib

/-!
Verification development for the code-submission grading and audit pipeline
(`grader.py` and `analyze_eval_run.py`).

Strings are modelled as `List Char`.  Python floats are modelled as exact
rationals (`ℚ`).  The two external collaborators of the grading core — the
`json.loads` parser of the standard library and the child-process executor
(`subprocess.run`) — are modelled as explicit function parameters: a parser
`List Char → Except (List Char) JValue` (an `error` models a raised
`JSONDecodeError`) and a runner `List Char → ProcResult`.
-/

/-- `String.data` as a short helper, used to write concrete inputs. -/
def strL (s : String) : List Char := s.data

/-- The whitespace predicate of Python's `str.strip` (ASCII part; the
markers counted by the grader contain no whitespace of any kind, so the
precise whitespace set is irrelevant to scoring). -/
def pyIsSpace (c : Char) : Bool :=
  c = ' ' || c = '\t' || c = '\n' || c = '\x0b' || c = '\x0c' || c = '\r'

/-- Python `str.strip()`: drop leading and trailing whitespace. -/
def strip (s : List Char) : List Char :=
  ((s.dropWhile pyIsSpace).reverse.dropWhile pyIsSpace).reverse

/-- Fuel-driven worker for `countOcc` (fuel makes the definition
structurally recursive, hence kernel-computable). -/
def countOccAux (pat : List Char) : Nat → List Char → Nat
  | 0, _ => 0
  | Nat.succ n, s =>
    match s with
    | [] => 0
    | c :: cs =>
      if pat.isPrefixOf (c :: cs) then 1 + countOccAux pat n (cs.drop (pat.length - 1))
      else countOccAux pat n cs

/-- Python `str.count`: number of non-overlapping occurrences of `pat`,
scanning left to right and skipping over each match. -/
def countOcc (pat s : List Char) : Nat := countOccAux pat s.length s

theorem countOccAux_nil (pat : List Char) (n : Nat) : countOccAux pat n [] = 0 := by
  cases n <;> rfl

theorem countOccAux_fuel (pat : List Char) :
    ∀ (n m : Nat) (s : List Char), s.length ≤ n → s.length ≤ m →
      countOccAux pat n s = countOccAux pat m s := by
  intro n
  induction n with
  | zero =>
    intro m s hn _
    have : s = [] := List.length_eq_zero.mp (Nat.le_zero.mp hn)
    subst this
    simp [countOccAux_nil]
  | succ n ih =>
    intro m s hn hm
    cases s with
    | nil => simp [countOccAux_nil]
    | cons c cs =>
      cases m with
      | zero => exact absurd hm (by simp)
      | succ m =>
        simp only [countOccAux]
        have hcs : cs.length ≤ n := by simpa using hn
        have hcs' : cs.length ≤ m := by simpa using hm
        by_cases hp : pat.isPrefixOf (c :: cs)
        · have hd : (cs.drop (pat.length - 1)).length ≤ cs.length := by
            simp
          rw [if_pos hp, if_pos hp,
            ih m (cs.drop (pat.length - 1)) (le_trans hd hcs) (le_trans hd hcs')]
        · rw [if_neg hp, if_neg hp, ih m cs hcs hcs']

theorem countOcc_nil (pat : List Char) : countOcc pat [] = 0 := rfl

theorem countOcc_cons (pat : List Char) (c : Char) (cs : List Char) :
    countOcc pat (c :: cs) =
      if pat.isPrefixOf (c :: cs) then 1 + countOcc pat (cs.drop (pat.length - 1))
      else countOcc pat cs := by
  unfold countOcc
  simp only [List.length_cons, countOccAux]
  by_cases hp : pat.isPrefixOf (c :: cs)
  · rw [if_pos hp, if_pos hp,
      countOccAux_fuel pat cs.length (cs.drop (pat.length - 1)).length
        (cs.drop (pat.length - 1)) (by simp) le_rfl]
  · rw [if_neg hp, if_neg hp]

/-- The pass marker literal counted by the grader. -/
def passMarker : List Char := strL "TEST_PASS"

/-- The fail marker literal counted by the grader. -/
def failMarker : List Char := strL "TEST_FAIL"

/-- Leftmost suffix of `s` that starts with an occurrence of `pat`
(i.e. the remainder of `s` from the first match position on), if any.
Models where `re.search` anchors a match of a pattern beginning with the
literal `pat`. -/
def firstOccSuffix (pat : List Char) : List Char → Option (List Char)
  | [] => if pat.isEmpty then some [] else none
  | c :: cs => if pat.isPrefixOf (c :: cs) then some (c :: cs) else firstOccSuffix pat cs

/-- The literal `"answer"` (quotes included) required inside the span by the
extraction pattern `\x7b.*"answer".*\x7d` of `grader.py` and
`analyze_eval_run.py`. -/
def answerLit : List Char := '"' :: strL "answer" ++ ['"']

/-- Keep `t` up to (and including) its last `'\x7d'`; drops everything after. -/
def upToLastBrace (t : List Char) : List Char :=
  (t.reverse.dropWhile (fun c => !(c = '}'))).reverse

/-- Does `t` contain an occurrence of `"answer"` followed, at or after its
end, by a closing brace?  Feasibility of one `"answer"` occurrence implies
feasibility of the first one, so only the first occurrence is inspected. -/
def hasAnswerThenBrace (t : List Char) : Bool :=
  match firstOccSuffix answerLit t with
  | none => false
  | some suf => (suf.drop answerLit.length).contains '}'

/-- Scan for the leftmost `'\x7b'` from which the greedy pattern
`\x7b.*"answer".*\x7d` (with `re.DOTALL`) can match; the match then runs to
the last `'\x7d'` of the remaining text. -/
def spanAux : List Char → Option (List Char)
  | [] => none
  | c :: cs =>
    if c = '{' && hasAnswerThenBrace cs then some (c :: upToLastBrace cs)
    else spanAux cs

/-- The span matched by `re.search(r'\x7b.*"answer".*\x7d', text, re.DOTALL)`,
if any: from the first feasible opening brace to the last closing brace. -/
def answerSpan (s : List Char) : Option (List Char) := spanAux s

/-- JSON values, as returned by `json.loads`.  Objects keep their key/value
pairs in textual order; lookup is last-wins as in a Python dict built from
JSON. -/
inductive JValue where
  | str (s : List Char)
  | num (q : ℚ)
  | bool (b : Bool)
  | null
  | arr (xs : List JValue)
  | obj (fields : List (List Char × JValue))

/-- Python dict lookup on a JSON object: the value of the last binding of
key `k`, if any. -/
def objGet (fields : List (List Char × JValue)) (k : List Char) : Option JValue :=
  (fields.reverse.find? (fun kv => decide (kv.1 = k))).map (fun kv => kv.2)

/-- Python truthiness of a JSON value. -/
def pyTruthy : JValue → Bool
  | JValue.str s => !s.isEmpty
  | JValue.num q => decide (q ≠ 0)
  | JValue.bool b => b
  | JValue.null => false
  | JValue.arr xs => !xs.isEmpty
  | JValue.obj fs => !fs.isEmpty

/-- The key `answer` looked up in the parsed response. -/
def answerKey : List Char := strL "answer"

/-- Result of one `subprocess.run` call on a code string: the process ran to
completion within the timeout (capturing both streams), timed out, or could
not be launched (any other exception of `subprocess.run`). -/
inductive ProcResult where
  | finished (stdout stderr : List Char)
  | timedOut
  | launchError

/-- Lines 81–97 of `grader.py`: strip the captured stdout, count the two
markers, and derive the score (`0.5` is written `1/2`). -/
def scoreOutput (stdout : List Char) : ℚ :=
  let output := strip stdout
  let p := countOcc passMarker output
  let f := countOcc failMarker output
  if p + f = 0 then 0
  else
    let rate : ℚ := (p : ℚ) / ((p + f : ℕ) : ℚ)
    if 0 < f then rate * (1 / 2) else rate

/-- Lines 61–97 of `grader.py`: the score as a function of the outcome of
the child process — zero on non-empty stderr, timeout, or launch failure,
otherwise the marker count score of the captured stdout. -/
def gradeRun : ProcResult → ℚ
  | ProcResult.finished so se => if se.isEmpty then scoreOutput so else 0
  | ProcResult.timedOut => 0
  | ProcResult.launchError => 0

/-- The two keys of the `sample` dict that `grade` reads.  A `none` field
models an absent key; `output_text` may hold a non-string value (the real
dict is untyped), which `grade` turns into a zero score either via Python
falsiness or via the `TypeError` of `re.search` caught by the outer
handler. -/
structure Sample where
  output_json : Option JValue
  output_text : Option JValue

/-- Lines 38–51 of `grader.py`: obtain the parsed response from
`output_text` — empty or absent text, a missing regex match, or a parse
error all yield no response (score 0.0). -/
def responseOfText (jl : List Char → Except (List Char) JValue) :
    Option JValue → Option JValue
  | some (JValue.str t) =>
    if t.isEmpty then none
    else
      match answerSpan t with
      | none => none
      | some span =>
        match jl span with
        | Except.ok r => some r
        | Except.error _ => none
  | _ => none

/-- `grade` of `grader.py` (lines 21–101), parametrised by the JSON parser
and the process runner (the name `grade` itself is taken by Mathlib).
Total: the outer `except Exception` of the source turns every raising path
into `0.0`, which is the value of the corresponding branch here. -/
def gradeSample (jl : List Char → Except (List Char) JValue)
    (runner : List Char → ProcResult) (sample : Sample) : ℚ :=
  let response? : Option JValue :=
    match sample.output_json with
    | some j => if pyTruthy j then some j else responseOfText jl sample.output_text
    | none => responseOfText jl sample.output_text
  match response? with
  | none => 0
  | some r =>
    match r with
    | JValue.obj fields =>
      match objGet fields answerKey with
      | some (JValue.str code) =>
        if (strip code).isEmpty then 0 else gradeRun (runner code)
      | some _ => 0
      | none => 0
    | _ => 0

/-- The rationale strings produced by `grade_quietly` and by the per-item
`except` handler of `analyze_eval_run` (the f-string texts are abstracted
into constructors; excerpt payloads keep the truncated source text). -/
inductive LocalMsg where
  | noCodeFound
  | execError (stderrExcerpt : List Char)
  | noTestsRun
  | passFail (p f : Nat)
  | timeout
  | otherError (excerpt : List Char)
  | parseError (excerpt : List Char)
deriving DecidableEq

/-- The message of the `TypeError` raised when a non-string reaches
`re.search` or `subprocess.run` (truncated excerpts of it are recorded). -/
def typeErrorMsg : List Char := strL "expected string or bytes-like object"

/-- The message of the `AttributeError` raised by `.get` on a non-dict. -/
def attributeErrorMsg : List Char := strL "object has no attribute get"

/-- `grade_quietly` of `analyze_eval_run.py` (lines 20–53): run the code and
return score plus rationale.  A non-string `code` makes `subprocess.run`
raise `TypeError`, caught by the function's own `except` (score 0.0). -/
def grade_quietly (runner : List Char → ProcResult) : JValue → ℚ × LocalMsg
  | JValue.str c =>
    match runner c with
    | ProcResult.finished so se =>
      if se.isEmpty then
        let output := strip so
        let p := countOcc passMarker output
        let f := countOcc failMarker output
        if p + f = 0 then (0, LocalMsg.noTestsRun)
        else
          let rate : ℚ := (p : ℚ) / ((p + f : ℕ) : ℚ)
          (if 0 < f then rate * (1 / 2) else rate, LocalMsg.passFail p f)
      else (0, LocalMsg.execError (se.take 100))
    | ProcResult.timedOut => (0, LocalMsg.timeout)
    | ProcResult.launchError => (0, LocalMsg.otherError [])
  | _ => (0, LocalMsg.otherError (typeErrorMsg.take 100))

/-- The marker comment literal `# Test cases` anchoring the protected
harness fragment. -/
def markerLit : List Char := strL "# Test cases"

/-- What `re.search(r'# Test cases.*?$', s, re.DOTALL | re.MULTILINE)`
matches on `s`: under `re.MULTILINE` the anchor `$` matches before every
newline, so the lazy `.*?` stops at the end of the line the marker starts
on (or at end of string) — the `re.DOTALL` flag never comes into play. -/
def extractHarness (s : List Char) : Option (List Char) :=
  (firstOccSuffix markerLit s).map (List.takeWhile (fun c => !(c = '\n')))

/-- The diagnostic attached to a tamper verdict: the literal
`Test harness missing` message, or the first 10 lines of the unified diff
of the two extracted fragments.  The diff text is a pure function of the
two fragments, which are recorded in place of its rendering. -/
inductive ManipDiag where
  | harnessMissing
  | diffOf (original submitted : List Char)
deriving DecidableEq

/-- `check_test_manipulation` of `analyze_eval_run.py` (lines 56–83). -/
def check_test_manipulation (code user_content : List Char) :
    Bool × Option ManipDiag :=
  match extractHarness user_content with
  | none => (false, none)
  | some original =>
    match extractHarness code with
    | none => (true, some ManipDiag.harnessMissing)
    | some submitted =>
      if original = submitted then (false, none)
      else (true, some (ManipDiag.diffOf original submitted))

/-- `check_test_manipulation` on the untyped values the auditor passes it:
`re.search` raises `TypeError` (modelled by `error`) as soon as it receives
a non-string, first on `user_content` (line 59), then on `code` (line 66);
a missing marker in `user_content` returns before `code` is touched. -/
def check_test_manipulationE (code user_content : JValue) :
    Except (List Char) (Bool × Option ManipDiag) :=
  match user_content with
  | JValue.str u =>
    match extractHarness u with
    | none => Except.ok (false, none)
    | some _ =>
      match code with
      | JValue.str c => Except.ok (check_test_manipulation c u)
      | _ => Except.error typeErrorMsg
  | _ => Except.error typeErrorMsg

/-- Split a text into its lines (separator `'\n'`, separators dropped). -/
def splitLines : List Char → List (List Char)
  | [] => [[]]
  | c :: cs =>
    if c = '\n' then [] :: splitLines cs
    else
      match splitLines cs with
      | r :: rs => (c :: r) :: rs
      | [] => [[c]]

/-- No line of `s` begins with the `# Test cases` marker. -/
def noMarkerLine (s : List Char) : Bool :=
  (splitLines s).all (fun l => !(markerLit.isPrefixOf l))

/-- Lines 176–193 of `analyze_eval_run.py`: grade one remote item locally.
Returns (local score, rationale, manipulated flag).  The `try` block covers
everything from the regex search to the tamper check; its `except` replaces
the rationale by a parse-error excerpt but leaves the score and the
`manipulated` flag at whatever values were last assigned. -/
def processItem (jl : List Char → Except (List Char) JValue)
    (runner : List Char → ProcResult)
    (output_text : List Char) (user_content : JValue) : ℚ × LocalMsg × Bool :=
  match answerSpan output_text with
  | none => (0, LocalMsg.noCodeFound, false)
  | some span =>
    match jl span with
    | Except.error e => (0, LocalMsg.parseError (e.take 50), false)
    | Except.ok response =>
      match response with
      | JValue.obj fields =>
        let code := (objGet fields answerKey).getD (JValue.str [])
        if pyTruthy code then
          let r := grade_quietly runner code
          match check_test_manipulationE code user_content with
          | Except.ok (manip, _) => (r.1, r.2, manip)
          | Except.error e => (r.1, LocalMsg.parseError (e.take 50), false)
        else (0, LocalMsg.noCodeFound, false)
      | _ => (0, LocalMsg.parseError (attributeErrorMsg.take 50), false)

/-- The audit loop's per-item local results: the `for` loop of
`analyze_eval_run` applies `processItem` to every fetched item in order
(each item's exceptions are caught inside the loop body, so the traversal
always reaches the end of the list). -/
def auditLocalResults (jl : List Char → Except (List Char) JValue)
    (runner : List Char → ProcResult)
    (items : List (List Char × JValue)) : List (ℚ × LocalMsg × Bool) :=
  items.map (fun it => processItem jl runner it.1 it.2)

/-- First message of the structured `output` shape of a remote sample: the
optional `content` field read by `sample_data['output'][0].get('content', '')`. -/
structure OutMsg where
  content : Option (List Char)

/-- The two alternate shapes of a remote sample's recorded model output
(lines 156–164 of `analyze_eval_run.py`): a structured `output` message
list, or a flat `output_text` string.  `none` models an absent key. -/
structure SampleData where
  output : Option (List OutMsg)
  output_text : Option (List Char)

/-- Lines 157–168 of `analyze_eval_run.py`: choose the model output text.
The structured shape wins when the `output` list is present and non-empty
and its first message carries non-empty content; otherwise the flat
`output_text` is used; an empty result means the item is counted as
`no_output` and skipped. -/
def selectOutputText (sd : SampleData) : List Char :=
  let t1 : List Char :=
    match sd.output with
    | some (m :: _) => m.content.getD []
    | _ => []
  if t1.isEmpty then sd.output_text.getD [] else t1

/-- A remote output item as far as the pagination loop reads it: only its
`id` is consulted (for the `after` cursor). -/
structure OutputItem where
  id : Nat
deriving DecidableEq

/-- `get_all_output_items` of `analyze_eval_run.py` (lines 86–110),
parametrised by the remote service (`fetch` returns one page: its `data`
list and its `has_more` flag) and by a fuel bound on the number of `while`
iterations; `none` means the fuel was exhausted, i.e. the loop was still
running.  Faithful to the source: the loop breaks only when `has_more` is
falsy, and advances the cursor only when the page is non-empty. -/
def get_all_output_items (fetch : Option Nat → List OutputItem × Bool) :
    Nat → Option Nat → List OutputItem → Option (List OutputItem)
  | 0, _, _ => none
  | Nat.succ n, after, acc =>
    let page := fetch after
    let acc2 := acc ++ page.1
    if page.2 then
      match page.1.getLast? with
      | some it => get_all_output_items fetch n (some it.id) acc2
      | none => get_all_output_items fetch n after acc2
    else some acc2

/-- The id of the last item of a page, if any (the value the loop assigns
to `after`). -/
def lastId (p : List OutputItem) : Option Nat := p.getLast?.map OutputItem.id

/-- A well-formed paginated service over a fixed page list: a cursor-less
request returns page 0; a request with cursor `cid` returns the page after
the first page whose last item has id `cid`; `has_more` reports whether a
further page exists.  Out-of-range indices produce an empty final page. -/
def fetchPaged (pages : List (List OutputItem)) (c : Option Nat) :
    List OutputItem × Bool :=
  let i : Nat :=
    match c with
    | none => 0
    | some cid => pages.findIdx (fun p => decide (lastId p = some cid)) + 1
  (pages.getD i [], decide (i + 1 < pages.length))

/-- A degenerate remote service that answers every request with an empty
page and `has_more = true`. -/
def emptyPageService : Option Nat → List OutputItem × Bool := fun _ => ([], true)

/-- The pagination loop terminates on service `fetch`: some finite number
of iterations suffices for it to return. -/
def paginationStops (fetch : Option Nat → List OutputItem × Bool) : Prop :=
  ∃ n r, get_all_output_items fetch n none [] = some r

theorem mem_of_getLastQ {α : Type} {l : List α} {a : α}
    (h : l.getLast? = some a) : a ∈ l := by
  induction l with
  | nil => simp at h
  | cons x xs ih =>
    cases xs with
    | nil => simp_all
    | cons y ys =>
      rw [List.getLast?_cons_cons] at h
      exact List.mem_cons_of_mem x (ih h)

theorem not_isPrefixOf_ws_head {pat : List Char} (hne : pat ≠ [])
    (hnws : ∀ a ∈ pat, pyIsSpace a = false) {c : Char} (hc : pyIsSpace c = true)
    (cs : List Char) : pat.isPrefixOf (c :: cs) = false := by
  cases pat with
  | nil => exact absurd rfl hne
  | cons a p =>
    by_contra hcon
    have hpre : a :: p <+: c :: cs :=
      List.isPrefixOf_iff_prefix.mp (by simpa using hcon)
    have hac : a = c := (List.cons_prefix_cons.mp hpre).1
    have : pyIsSpace a = false := hnws a (List.mem_cons_self a p)
    rw [hac, hc] at this
    simp at this

theorem countOcc_cons_ws {pat : List Char} (hne : pat ≠ [])
    (hnws : ∀ a ∈ pat, pyIsSpace a = false) {c : Char} (hc : pyIsSpace c = true)
    (cs : List Char) : countOcc pat (c :: cs) = countOcc pat cs := by
  rw [countOcc_cons, not_isPrefixOf_ws_head hne hnws hc cs]
  simp

theorem countOcc_all_ws {pat : List Char} (hne : pat ≠ [])
    (hnws : ∀ a ∈ pat, pyIsSpace a = false) :
    ∀ t : List Char, (∀ a ∈ t, pyIsSpace a = true) → countOcc pat t = 0 := by
  intro t
  induction t with
  | nil => intro _; exact countOcc_nil pat
  | cons c cs ih =>
    intro ht
    rw [countOcc_cons_ws hne hnws (ht c (List.mem_cons_self c cs)) cs]
    exact ih (fun a ha => ht a (List.mem_cons_of_mem c ha))

theorem countOcc_dropWhile_ws {pat : List Char} (hne : pat ≠ [])
    (hnws : ∀ a ∈ pat, pyIsSpace a = false) (s : List Char) :
    countOcc pat (s.dropWhile pyIsSpace) = countOcc pat s := by
  induction s with
  | nil => rfl
  | cons c cs ih =>
    rw [List.dropWhile_cons]
    by_cases hc : pyIsSpace c = true
    · rw [if_pos hc, ih, countOcc_cons_ws hne hnws hc cs]
    · rw [if_neg hc]

theorem isPrefixOf_append_ws {pat : List Char}
    (hnws : ∀ a ∈ pat, pyIsSpace a = false) {t : List Char}
    (ht : ∀ a ∈ t, pyIsSpace a = true) (l : List Char) :
    pat.isPrefixOf (l ++ t) = pat.isPrefixOf l := by
  cases t with
  | nil => rw [List.append_nil]
  | cons w t' =>
    by_cases h : pat.isPrefixOf (l ++ w :: t') = true
    · have hpre : pat <+: l ++ w :: t' := List.isPrefixOf_iff_prefix.mp h
      have htake := List.prefix_iff_eq_take.mp hpre
      by_cases hlen : pat.length ≤ l.length
      · have hlt : List.take pat.length (l ++ w :: t') = List.take pat.length l := by
          rw [List.take_append_eq_append_take, Nat.sub_eq_zero_of_le hlen,
            List.take_zero, List.append_nil]
        have hpl : pat <+: l := List.prefix_iff_eq_take.mpr (htake.trans hlt)
        rw [h, eq_comm]
        exact List.isPrefixOf_iff_prefix.mpr hpl
      · exfalso
        have hpos : 0 < pat.length - l.length := by omega
        obtain ⟨k, hk⟩ : ∃ k, pat.length - l.length = k + 1 :=
          ⟨pat.length - l.length - 1, by omega⟩
        have hw : w ∈ pat := by
          rw [htake, List.take_append_eq_append_take, hk, List.take_succ_cons]
          exact List.mem_append_right _ (List.mem_cons_self w _)
        have := hnws w hw
        rw [ht w (List.mem_cons_self w t')] at this
        simp at this
    · rw [Bool.eq_false_iff.mpr h, eq_comm, Bool.eq_false_iff]
      intro hcon
      exact h (List.isPrefixOf_iff_prefix.mpr
        ((List.isPrefixOf_iff_prefix.mp hcon).trans (List.prefix_append l (w :: t'))))

theorem countOcc_append_ws {pat : List Char} (hne : pat ≠ [])
    (hnws : ∀ a ∈ pat, pyIsSpace a = false) {t : List Char}
    (ht : ∀ a ∈ t, pyIsSpace a = true) :
    ∀ s : List Char, countOcc pat (s ++ t) = countOcc pat s := by
  have main : ∀ (n : Nat) (s : List Char), s.length = n →
      countOcc pat (s ++ t) = countOcc pat s := by
    intro n
    induction n using Nat.strong_induction_on with
    | _ n ih =>
      intro s hs
      cases s with
      | nil => simpa using countOcc_all_ws hne hnws t ht
      | cons c cs =>
        have hpre := isPrefixOf_append_ws hnws ht (c :: cs)
        rw [List.cons_append] at hpre
        rw [List.cons_append, countOcc_cons, countOcc_cons, hpre]
        by_cases hp : pat.isPrefixOf (c :: cs) = true
        · rw [if_pos hp, if_pos hp]
          have hlen : pat.length - 1 ≤ cs.length := by
            have := (List.isPrefixOf_iff_prefix.mp hp).length_le
            simp at this
            omega
          have hdrop : (cs ++ t).drop (pat.length - 1) =
              cs.drop (pat.length - 1) ++ t := by
            rw [List.drop_append_eq_append_drop, Nat.sub_eq_zero_of_le hlen,
              List.drop_zero]
          rw [hdrop, ih (cs.drop (pat.length - 1)).length
            (by rw [← hs]; simp; omega) _ rfl]
        · rw [if_neg hp, if_neg hp,
            ih cs.length (by rw [← hs]; simp) cs rfl]
  exact fun s => main s.length s rfl

theorem countOcc_strip {pat : List Char} (hne : pat ≠ [])
    (hnws : ∀ a ∈ pat, pyIsSpace a = false) (s : List Char) :
    countOcc pat (strip s) = countOcc pat s := by
  rw [← countOcc_dropWhile_ws hne hnws s]
  set u := s.dropWhile pyIsSpace with hu
  have hsplit : u = strip s ++ ((u.reverse.takeWhile pyIsSpace).reverse) := by
    rw [strip, ← hu]
    conv_lhs => rw [← List.reverse_reverse u,
      ← List.takeWhile_append_dropWhile pyIsSpace u.reverse, List.reverse_append]
  rw [hsplit, countOcc_append_ws hne hnws
    (fun a ha => List.mem_takeWhile_imp (List.mem_reverse.mp ha)) (strip s)]

theorem score_arith_bounds (p f : ℕ) :
    0 ≤ (if p + f = 0 then (0 : ℚ)
         else if 0 < f then (p : ℚ) / ((p + f : ℕ) : ℚ) * (1 / 2)
         else (p : ℚ) / ((p + f : ℕ) : ℚ)) ∧
    (if p + f = 0 then (0 : ℚ)
     else if 0 < f then (p : ℚ) / ((p + f : ℕ) : ℚ) * (1 / 2)
     else (p : ℚ) / ((p + f : ℕ) : ℚ)) ≤ 1 := by
  by_cases h : p + f = 0
  · simp [h]
  · have hpos : (0 : ℚ) < ((p + f : ℕ) : ℚ) := by
      exact_mod_cast Nat.pos_of_ne_zero h
    have hr0 : (0 : ℚ) ≤ (p : ℚ) / ((p + f : ℕ) : ℚ) := div_nonneg (by positivity) hpos.le
    have hr1 : (p : ℚ) / ((p + f : ℕ) : ℚ) ≤ 1 := by
      rw [div_le_one hpos]
      exact_mod_cast Nat.le_add_right p f
    by_cases hfp : 0 < f
    · simp only [h, if_false, hfp, if_true]
      constructor
      · positivity
      · nlinarith [hr0, hr1]
    · simp only [h, if_false, hfp, if_false]
      exact ⟨hr0, hr1⟩

theorem scoreOutput_bounds (so : List Char) :
    0 ≤ scoreOutput so ∧ scoreOutput so ≤ 1 := by
  simpa [scoreOutput] using
    score_arith_bounds (countOcc passMarker (strip so)) (countOcc failMarker (strip so))

theorem gradeRun_bounds (r : ProcResult) : 0 ≤ gradeRun r ∧ gradeRun r ≤ 1 := by
  cases r with
  | finished so se =>
    unfold gradeRun
    by_cases hse : se.isEmpty
    · simpa [hse] using scoreOutput_bounds so
    · simp [hse]
  | timedOut => simp [gradeRun]
  | launchError => simp [gradeRun]

theorem grade_quietly_str (runner : List Char → ProcResult) (c : List Char) :
    (grade_quietly runner (JValue.str c)).1 = gradeRun (runner c) := by
  cases h : runner c with
  | finished so se =>
    by_cases hse : se.isEmpty
    · by_cases hpf : countOcc passMarker (strip so) + countOcc failMarker (strip so) = 0
      · simp [grade_quietly, gradeRun, h, scoreOutput, hse, hpf]
      · by_cases hfp : 0 < countOcc failMarker (strip so)
        · simp [grade_quietly, gradeRun, h, scoreOutput, hse, hpf, hfp]
        · simp [grade_quietly, gradeRun, h, scoreOutput, hse, hpf, hfp]
    · simp [grade_quietly, gradeRun, h, hse]
  | timedOut => simp [grade_quietly, gradeRun, h]
  | launchError => simp [grade_quietly, gradeRun, h]

/-- C1: for a completed execution whose captured stdout contains `P`
non-overlapping `TEST_PASS` markers and `F` `TEST_FAIL` markers, the score
is `0` when `P + F = 0`, exactly `1` when `F = 0 < P`, and exactly
`1/2 * P/(P+F)` when `F > 0`. -/
theorem grader_score_formula (so : List Char) (P F : ℕ)
    (hP : countOcc passMarker so = P) (hF : countOcc failMarker so = F) :
    (P + F = 0 → scoreOutput so = 0) ∧
    (F = 0 → 0 < P → scoreOutput so = 1) ∧
    (0 < F → scoreOutput so = 1 / 2 * ((P : ℚ) / ((P : ℚ) + (F : ℚ)))) := by
  have hp : countOcc passMarker (strip so) = P := by
    rw [countOcc_strip (by decide) (by decide), hP]
  have hf : countOcc failMarker (strip so) = F := by
    rw [countOcc_strip (by decide) (by decide), hF]
  refine ⟨?_, ?_, ?_⟩
  · intro h
    simp [scoreOutput, hp, hf, h]
  · intro hF0 hP0
    have hne : ¬ (P + F = 0) := by omega
    have hnf : ¬ (0 < F) := by omega
    simp only [scoreOutput, hp, hf, if_neg hne, if_neg hnf]
    rw [hF0, Nat.add_zero, div_self (Nat.cast_ne_zero.mpr (by omega))]
  · intro hFpos
    have hne : ¬ (P + F = 0) := by omega
    simp only [scoreOutput, hp, hf, if_neg hne, if_pos hFpos]
    push_cast
    ring

/-- Witness for `grader_score_formula` at a concrete stdout with one pass
and one fail marker. -/
theorem grader_score_formula_witness :
    countOcc passMarker (strL "TEST_PASS a\nTEST_FAIL b") = 1 ∧
    countOcc failMarker (strL "TEST_PASS a\nTEST_FAIL b") = 1 ∧
    scoreOutput (strL "TEST_PASS a\nTEST_FAIL b") =
      1 / 2 * ((((1 : ℕ) : ℚ)) / (((1 : ℕ) : ℚ) + ((1 : ℕ) : ℚ))) :=
  ⟨by decide, by decide,
    (grader_score_formula (strL "TEST_PASS a\nTEST_FAIL b") 1 1
      (by decide) (by decide)).2.2 (by decide)⟩

/-- C2: every execution outcome other than a clean completion scores `0.0`
in both graders — non-empty stderr (whatever stdout holds), timeout, and
launch failure. -/
theorem nonCompleted_scores_zero :
    (∀ so se : List Char, se ≠ [] → gradeRun (ProcResult.finished so se) = 0) ∧
    gradeRun ProcResult.timedOut = 0 ∧
    gradeRun ProcResult.launchError = 0 ∧
    (∀ (runner : List Char → ProcResult) (c so se : List Char),
      runner c = ProcResult.finished so se → se ≠ [] →
      (grade_quietly runner (JValue.str c)).1 = 0) ∧
    (∀ (runner : List Char → ProcResult) (c : List Char),
      runner c = ProcResult.timedOut → (grade_quietly runner (JValue.str c)).1 = 0) ∧
    (∀ (runner : List Char → ProcResult) (c : List Char),
      runner c = ProcResult.launchError → (grade_quietly runner (JValue.str c)).1 = 0) := by
  have hfin : ∀ so se : List Char, se ≠ [] → gradeRun (ProcResult.finished so se) = 0 := by
    intro so se hse
    simp [gradeRun, List.isEmpty_iff, hse]
  refine ⟨hfin, rfl, rfl, ?_, ?_, ?_⟩
  · intro runner c so se hrun hse
    rw [grade_quietly_str, hrun]
    exact hfin so se hse
  · intro runner c hrun
    rw [grade_quietly_str, hrun]
    rfl
  · intro runner c hrun
    rw [grade_quietly_str, hrun]
    rfl

/-- Witness for `nonCompleted_scores_zero`: a run with stderr output and a
timed-out run both score zero. -/
theorem nonCompleted_scores_zero_witness :
    gradeRun (ProcResult.finished (strL "TEST_PASS") (strL "boom")) = 0 ∧
    (grade_quietly (fun _ => ProcResult.timedOut) (JValue.str [])).1 = 0 :=
  ⟨nonCompleted_scores_zero.1 (strL "TEST_PASS") (strL "boom") (by decide),
    nonCompleted_scores_zero.2.2.2.2.1 (fun _ => ProcResult.timedOut) [] rfl⟩

/-- C5: `grade` is total (every raising path is absorbed by its handlers)
and always returns a score in `[0, 1]`; missing, malformed, non-object and
empty-answer payloads in particular all score `0.0`. -/
theorem gradeSample_safe :
    (∀ (jl : List Char → Except (List Char) JValue)
       (runner : List Char → ProcResult) (sample : Sample),
      0 ≤ gradeSample jl runner sample ∧ gradeSample jl runner sample ≤ 1) ∧
    (∀ (jl : List Char → Except (List Char) JValue)
       (runner : List Char → ProcResult),
      gradeSample jl runner ⟨none, none⟩ = 0) ∧
    (∀ (runner : List Char → ProcResult) (t m : List Char),
      gradeSample (fun _ => Except.error m) runner ⟨none, some (JValue.str t)⟩ = 0) ∧
    (∀ (jl : List Char → Except (List Char) JValue)
       (runner : List Char → ProcResult) (t : Option JValue),
      gradeSample jl runner ⟨some (JValue.arr [JValue.num 1]), t⟩ = 0) ∧
    (∀ (jl : List Char → Except (List Char) JValue)
       (runner : List Char → ProcResult) (t : Option JValue),
      gradeSample jl runner ⟨some (JValue.obj [(answerKey, JValue.str [])]), t⟩ = 0) := by
  refine ⟨?_, ?_, ?_, ?_, ?_⟩
  · intro jl runner sample
    unfold gradeSample
    dsimp only
    repeat' split
    all_goals try exact gradeRun_bounds _
    all_goals norm_num
  · intro jl runner
    rfl
  · intro runner t m
    by_cases h : t.isEmpty
    · simp [gradeSample, responseOfText, h]
    · cases hsp : answerSpan t <;> simp [gradeSample, responseOfText, h, hsp]
  · intro jl runner t
    rfl
  · intro jl runner t
    rfl

/-- C6: the harness comparison is reflexive — whenever the fragment the
checker extracts from the submission is identical to the one it extracts
from the problem text (in particular when comparing any text with itself),
the verdict is `tampered = false` with no diff. -/
theorem check_reflexive :
    (∀ u : List Char, check_test_manipulation u u = (false, none)) ∧
    (∀ code u frag : List Char, extractHarness u = some frag →
      extractHarness code = some frag →
      check_test_manipulation code u = (false, none)) := by
  constructor
  · intro u
    cases h : extractHarness u <;> simp [check_test_manipulation, h]
  · intro code u frag hu hc
    simp [check_test_manipulation, hu, hc]

/-- Witness for `check_reflexive`: two texts whose extracted fragments
coincide compare as untampered. -/
theorem check_reflexive_witness :
    extractHarness (strL "intro\n# Test cases A\nbody1") = some (strL "# Test cases A") ∧
    extractHarness (strL "sol\n# Test cases A\nbody2") = some (strL "# Test cases A") ∧
    check_test_manipulation (strL "sol\n# Test cases A\nbody2")
      (strL "intro\n# Test cases A\nbody1") = (false, none) :=
  ⟨by decide, by decide,
    check_reflexive.2 (strL "sol\n# Test cases A\nbody2")
      (strL "intro\n# Test cases A\nbody1") (strL "# Test cases A")
      (by decide) (by decide)⟩

/-- C10 counterexample: a problem text none of whose lines begins with
`# Test cases` can still be flagged — the search is substring-based, so a
mid-line marker occurrence anchors extraction, and a submission without
the marker is then reported `tampered = true` (harness missing). -/
theorem no_marker_line_flagged :
    noMarkerLine (strL "foo # Test cases\nbar") = true ∧
    check_test_manipulation (strL "x") (strL "foo # Test cases\nbar") =
      (true, some ManipDiag.harnessMissing) :=
  ⟨by decide, by decide⟩

/-- C10 amended: when the problem text contains no occurrence of the
substring `# Test cases` at all, the checker always reports
`tampered = false` with no diff, whatever the submission is. -/
theorem no_marker_no_tamper (code u : List Char)
    (h : firstOccSuffix markerLit u = none) :
    check_test_manipulation code u = (false, none) := by
  simp [check_test_manipulation, extractHarness, h]

/-- Witness for `no_marker_no_tamper` at a concrete marker-free problem
text. -/
theorem no_marker_no_tamper_witness :
    firstOccSuffix markerLit (strL "print(1)") = none ∧
    check_test_manipulation (strL "anything") (strL "print(1)") = (false, none) :=
  ⟨by decide, no_marker_no_tamper (strL "anything") (strL "print(1)") (by decide)⟩

/-- C3 (code bug, evaluated): the pattern `# Test cases.*?$` with
`re.MULTILINE` stops at the first line end, so the checker extracts only
the marker line; two texts that differ below the marker line therefore
compare equal and the edit to the test body is not flagged. -/
theorem harness_fragment_single_line :
    extractHarness (strL "# Test cases\nassert f(1) == 2") = some (strL "# Test cases") ∧
    extractHarness (strL "# Test cases\nprint(\"hacked\")") = some (strL "# Test cases") ∧
    check_test_manipulation (strL "# Test cases\nprint(\"hacked\")")
      (strL "# Test cases\nassert f(1) == 2") = (false, none) :=
  ⟨by decide, by decide, by decide⟩

/-- C8: output-text selection precedence — the structured `output` shape
wins whenever its first message carries non-empty content; otherwise the
flat `output_text` field is used; when both are absent or empty the item is
classified as no-output (empty selection). -/
theorem output_text_precedence :
    (∀ (sd : SampleData) (m : OutMsg) (ms : List OutMsg) (t : List Char),
      sd.output = some (m :: ms) → m.content = some t → t ≠ [] →
      selectOutputText sd = t) ∧
    (∀ sd : SampleData,
      (∀ m ms, sd.output = some (m :: ms) → m.content.getD [] = []) →
      selectOutputText sd = sd.output_text.getD []) ∧
    (∀ sd : SampleData,
      (∀ m ms, sd.output = some (m :: ms) → m.content.getD [] = []) →
      sd.output_text.getD [] = [] → selectOutputText sd = []) := by
  have hsnd : ∀ sd : SampleData,
      (∀ m ms, sd.output = some (m :: ms) → m.content.getD [] = []) →
      selectOutputText sd = sd.output_text.getD [] := by
    intro sd h
    unfold selectOutputText
    cases ho : sd.output with
    | none => simp
    | some l =>
      cases l with
      | nil => simp
      | cons m ms => simp [h m ms ho]
  refine ⟨?_, hsnd, ?_⟩
  · intro sd m ms t ho hc ht
    simp [selectOutputText, ho, hc, ht]
  · intro sd h hflat
    rw [hsnd sd h, hflat]

/-- Witness for `output_text_precedence`: an item carrying both shapes
selects the structured content. -/
theorem output_text_precedence_witness :
    selectOutputText ⟨some [⟨some (strL "hello")⟩], some (strL "flat")⟩ = strL "hello" :=
  output_text_precedence.1 ⟨some [⟨some (strL "hello")⟩], some (strL "flat")⟩
    ⟨some (strL "hello")⟩ [] (strL "hello") rfl rfl (by decide)

/-- A concrete submission text: a JSON object whose `answer` is a program
printing one pass marker. -/
def itemText : List Char :=
  strL "\x7b\"answer\": \"print(\\\"TEST_PASS\\\")\"\x7d"

/-- The code string embedded in `itemText`. -/
def itemCode : List Char := strL "print(\"TEST_PASS\")"

/-- `json.loads` evaluated on the span extracted from `itemText` (constant
model of the parser at this one input). -/
def jlItem : List Char → Except (List Char) JValue :=
  fun _ => Except.ok (JValue.obj [(answerKey, JValue.str itemCode)])

/-- The executor's behaviour on `itemCode`: one pass marker on stdout,
empty stderr (constant model of the runner at this one input). -/
def runnerPass : List Char → ProcResult :=
  fun _ => ProcResult.finished (strL "TEST_PASS") []

/-- C7 counterexample: the tamper check receives the non-string user
content recorded for the item, `re.search` raises `TypeError` after the
item was already graded, and the per-item handler keeps the computed local
score `1.0` — not `0.0` as the claim states — while recording the error
message. -/
theorem tamper_exception_keeps_score :
    check_test_manipulationE (JValue.str itemCode) (JValue.arr []) =
      Except.error typeErrorMsg ∧
    processItem jlItem runnerPass itemText (JValue.arr []) =
      (1, LocalMsg.parseError (typeErrorMsg.take 50), false) := by
  constructor
  · rfl
  · have hp : countOcc passMarker (strip (strL "TEST_PASS")) = 1 := by decide
    have hf : countOcc failMarker (strip (strL "TEST_PASS")) = 0 := by decide
    have hq : grade_quietly runnerPass (JValue.str itemCode) = (1, LocalMsg.passFail 1 0) := by
      simp [grade_quietly, runnerPass, hp, hf]
    cases hsp : answerSpan itemText with
    | none => exact absurd hsp (by decide)
    | some sp =>
      have hobj : objGet [(answerKey, JValue.str itemCode)] answerKey
          = some (JValue.str itemCode) := rfl
      have htr : pyTruthy (JValue.str itemCode) = true := by decide
      have hck : check_test_manipulationE (JValue.str itemCode) (JValue.arr []) =
          Except.error typeErrorMsg := rfl
      simp [processItem, hsp, jlItem, hobj, htr, hck, hq]

/-- C7 amended: an exception during extraction or parsing is caught with
local score `0.0` and a recorded error message; an exception raised by the
tamper check after grading is caught with the message recorded but the
already-computed `grade_quietly` score kept (possibly non-zero); in every
case the loop body is total, so the audit traverses all items. -/
theorem per_item_exceptions :
    (∀ (jl : List Char → Except (List Char) JValue)
       (runner : List Char → ProcResult) (t : List Char) (uc : JValue)
       (sp e : List Char),
      answerSpan t = some sp → jl sp = Except.error e →
      processItem jl runner t uc = (0, LocalMsg.parseError (e.take 50), false)) ∧
    (∀ (jl : List Char → Except (List Char) JValue)
       (runner : List Char → ProcResult) (t : List Char) (uc : JValue)
       (sp : List Char) (fs : List (List Char × JValue)),
      answerSpan t = some sp → jl sp = Except.ok (JValue.obj fs) →
      pyTruthy ((objGet fs answerKey).getD (JValue.str [])) = true →
      check_test_manipulationE ((objGet fs answerKey).getD (JValue.str [])) uc =
        Except.error typeErrorMsg →
      processItem jl runner t uc =
        ((grade_quietly runner ((objGet fs answerKey).getD (JValue.str []))).1,
          LocalMsg.parseError (typeErrorMsg.take 50), false)) ∧
    (∀ (jl : List Char → Except (List Char) JValue)
       (runner : List Char → ProcResult) (items : List (List Char × JValue)),
      (auditLocalResults jl runner items).length = items.length) := by
  refine ⟨?_, ?_, ?_⟩
  · intro jl runner t uc sp e hsp hjl
    simp [processItem, hsp, hjl]
  · intro jl runner t uc sp fs hsp hjl htr hck
    simp [processItem, hsp, hjl, htr, hck]
  · intro jl runner items
    simp [auditLocalResults]

/-- Witness for `per_item_exceptions`: the parse-exception clause at a
concrete item whose `json.loads` raises. -/
theorem per_item_exceptions_witness :
    processItem (fun _ => Except.error (strL "bad json")) runnerPass itemText
      JValue.null =
      (0, LocalMsg.parseError ((strL "bad json").take 50), false) :=
  per_item_exceptions.1 (fun _ => Except.error (strL "bad json")) runnerPass
    itemText JValue.null (upToLastBrace itemText) (strL "bad json")
    (by decide) rfl

/-- C9: for any output text, the auditor's local pipeline (regex answer
extraction, `json.loads`, `grade_quietly`) computes exactly the score the
grader's `grade` returns on a sample whose `output_text` is that text.
Both components are given the same parser and the same executor; the only
behavioural fact needed of the executor is that a whitespace-only program
runs cleanly with no output (the two functions guard empty code
differently: `grade` checks `code.strip()`, the auditor only `code`). -/
theorem auditor_grader_equiv
    (jl : List Char → Except (List Char) JValue)
    (runner : List Char → ProcResult)
    (hws : ∀ c : List Char, c ≠ [] → strip c = [] →
      runner c = ProcResult.finished [] [])
    (t : List Char) (uc : JValue) :
    (processItem jl runner t uc).1 =
      gradeSample jl runner ⟨none, some (JValue.str t)⟩ := by
  by_cases ht : t.isEmpty
  · have ht' : t = [] := List.isEmpty_iff.mp ht
    subst ht'
    rfl
  · cases hsp : answerSpan t with
    | none => simp [processItem, gradeSample, responseOfText, ht, hsp]
    | some sp =>
      cases hjl : jl sp with
      | error e => simp [processItem, gradeSample, responseOfText, ht, hsp, hjl]
      | ok r =>
        cases r with
        | str s => simp [processItem, gradeSample, responseOfText, ht, hsp, hjl]
        | num q => simp [processItem, gradeSample, responseOfText, ht, hsp, hjl]
        | bool b => simp [processItem, gradeSample, responseOfText, ht, hsp, hjl]
        | null => simp [processItem, gradeSample, responseOfText, ht, hsp, hjl]
        | arr xs => simp [processItem, gradeSample, responseOfText, ht, hsp, hjl]
        | obj fs =>
          cases hget : objGet fs answerKey with
          | none =>
            simp [processItem, gradeSample, responseOfText, ht, hsp, hjl, hget, pyTruthy]
          | some w =>
            cases w with
            | str c =>
              by_cases hc : c.isEmpty
              · have hc' : c = [] := List.isEmpty_iff.mp hc
                subst hc'
                simp [processItem, gradeSample, responseOfText, ht, hsp, hjl, hget,
                  pyTruthy, strip]
              · by_cases hstrip : (strip c).isEmpty
                · have hrun := hws c (by simpa using hc) (List.isEmpty_iff.mp hstrip)
                  have hz : gradeRun (runner c) = 0 := by
                    rw [hrun]
                    simp [gradeRun, scoreOutput, strip, countOcc_nil]
                  simp only [processItem, gradeSample, responseOfText, ht, hsp, hjl,
                    hget, Option.getD_some, pyTruthy, hc, Bool.not_false, if_true,
                    Bool.false_eq_true, if_false, hstrip]
                  cases check_test_manipulationE (JValue.str c) uc with
                  | ok p =>
                    obtain ⟨manip, reason⟩ := p
                    simp [grade_quietly_str, hz, hstrip]
                  | error e => simp [grade_quietly_str, hz, hstrip]
                · simp only [processItem, gradeSample, responseOfText, ht, hsp, hjl,
                    hget, Option.getD_some, pyTruthy, hc, Bool.not_false, if_true,
                    Bool.false_eq_true, if_false, hstrip]
                  cases check_test_manipulationE (JValue.str c) uc with
                  | ok p =>
                    obtain ⟨manip, reason⟩ := p
                    simp [grade_quietly_str, hstrip]
                  | error e => simp [grade_quietly_str, hstrip]
            | num q =>
              cases hck : check_test_manipulationE (JValue.num q) uc with
              | ok p =>
                obtain ⟨manip, reason⟩ := p
                by_cases hq : pyTruthy (JValue.num q) = true <;>
                  simp [processItem, gradeSample, responseOfText, ht, hsp, hjl, hget,
                    hq, hck, grade_quietly]
              | error e =>
                by_cases hq : pyTruthy (JValue.num q) = true <;>
                  simp [processItem, gradeSample, responseOfText, ht, hsp, hjl, hget,
                    hq, hck, grade_quietly]
            | bool b =>
              cases hck : check_test_manipulationE (JValue.bool b) uc with
              | ok p =>
                obtain ⟨manip, reason⟩ := p
                by_cases hq : pyTruthy (JValue.bool b) = true <;>
                  simp [processItem, gradeSample, responseOfText, ht, hsp, hjl, hget,
                    hq, hck, grade_quietly]
              | error e =>
                by_cases hq : pyTruthy (JValue.bool b) = true <;>
                  simp [processItem, gradeSample, responseOfText, ht, hsp, hjl, hget,
                    hq, hck, grade_quietly]
            | null =>
              simp [processItem, gradeSample, responseOfText, ht, hsp, hjl, hget,
                pyTruthy]
            | arr xs =>
              cases hck : check_test_manipulationE (JValue.arr xs) uc with
              | ok p =>
                obtain ⟨manip, reason⟩ := p
                by_cases hq : pyTruthy (JValue.arr xs) = true <;>
                  simp [processItem, gradeSample, responseOfText, ht, hsp, hjl, hget,
                    hq, hck, grade_quietly]
              | error e =>
                by_cases hq : pyTruthy (JValue.arr xs) = true <;>
                  simp [processItem, gradeSample, responseOfText, ht, hsp, hjl, hget,
                    hq, hck, grade_quietly]
            | obj fs2 =>
              cases hck : check_test_manipulationE (JValue.obj fs2) uc with
              | ok p =>
                obtain ⟨manip, reason⟩ := p
                by_cases hq : pyTruthy (JValue.obj fs2) = true <;>
                  simp [processItem, gradeSample, responseOfText, ht, hsp, hjl, hget,
                    hq, hck, grade_quietly]
              | error e =>
                by_cases hq : pyTruthy (JValue.obj fs2) = true <;>
                  simp [processItem, gradeSample, responseOfText, ht, hsp, hjl, hget,
                    hq, hck, grade_quietly]

/-- An executor whose child process always completes silently. -/
def runnerSilent : List Char → ProcResult := fun _ => ProcResult.finished [] []

/-- Witness for `auditor_grader_equiv` at a concrete parser, runner and
text. -/
theorem auditor_grader_equiv_witness :
    (processItem (fun _ => Except.error (strL "oops")) runnerSilent
        (strL "plain text") JValue.null).1 =
      gradeSample (fun _ => Except.error (strL "oops")) runnerSilent
        ⟨none, some (JValue.str (strL "plain text"))⟩ :=
  auditor_grader_equiv (fun _ => Except.error (strL "oops")) runnerSilent
    (fun _ _ _ => rfl) (strL "plain text") JValue.null

theorem emptyPageService_never_returns :
    ∀ (n : Nat) (c : Option Nat) (acc : List OutputItem),
      get_all_output_items emptyPageService n c acc = none := by
  intro n
  induction n with
  | zero => intro c acc; rfl
  | succ n ih =>
    intro c acc
    simp [get_all_output_items, emptyPageService, ih]

/-- C4 counterexample: against a service whose every page has zero items
(with `has_more` still true), the loop never terminates — it refetches with
an unchanged cursor forever — contradicting the claim that a page with zero
items ends the pagination. -/
theorem pagination_empty_page_loops : ¬ paginationStops emptyPageService := by
  rintro ⟨n, r, h⟩
  rw [emptyPageService_never_returns n none []] at h
  exact Option.noConfusion h

theorem findIdx_lastId (cid : Nat) :
    ∀ (pre : List (List OutputItem)) (q : List OutputItem)
      (rest : List (List OutputItem)), lastId q = some cid →
      (((pre ++ q :: rest).flatten).map OutputItem.id).Nodup →
      (pre ++ q :: rest).findIdx (fun p => decide (lastId p = some cid)) =
        pre.length := by
  intro pre
  induction pre with
  | nil =>
    intro q rest hq _
    simp [List.findIdx_cons, hq]
  | cons p pre' ih =>
    intro q rest hq hid
    have hflat : ((p :: (pre' ++ q :: rest)).flatten).map OutputItem.id =
        p.map OutputItem.id ++ ((pre' ++ q :: rest).flatten).map OutputItem.id := by
      simp [List.flatten_cons]
    rw [List.cons_append] at hid ⊢
    rw [hflat] at hid
    have hdisj := (List.nodup_append.mp hid).2.2
    have hp : lastId p ≠ some cid := by
      intro hp
      obtain ⟨itp, hitp, hidp⟩ : ∃ it, p.getLast? = some it ∧ it.id = cid := by
        cases hgl : p.getLast? with
        | none => simp [lastId, hgl] at hp
        | some it => exact ⟨it, rfl, by simpa [lastId, hgl] using hp⟩
      obtain ⟨itq, hitq, hidq⟩ : ∃ it, q.getLast? = some it ∧ it.id = cid := by
        cases hgl : q.getLast? with
        | none => simp [lastId, hgl] at hq
        | some it => exact ⟨it, rfl, by simpa [lastId, hgl] using hq⟩
      have hmp : cid ∈ p.map OutputItem.id :=
        List.mem_map.mpr ⟨itp, mem_of_getLastQ hitp, hidp⟩
      have hmq : cid ∈ ((pre' ++ q :: rest).flatten).map OutputItem.id := by
        refine List.mem_map.mpr ⟨itq, ?_, hidq⟩
        exact List.mem_flatten.mpr ⟨q,
          List.mem_append_right pre' (List.mem_cons_self q rest),
          mem_of_getLastQ hitq⟩
      exact hdisj hmp hmq
    rw [List.findIdx_cons, decide_eq_false hp, cond_false,
      ih q rest hq (List.nodup_append.mp hid).2.1]
    simp

theorem fetchPaged_at_cursor (pages pre rest : List (List OutputItem))
    (hpages : pages = pre ++ rest)
    (hne : ∀ p ∈ pages, p ≠ [])
    (hid : ((pages.flatten).map OutputItem.id).Nodup) :
    fetchPaged pages (pre.getLast?.bind lastId) =
      (pages.getD pre.length [], decide (pre.length + 1 < pages.length)) := by
  rcases List.eq_nil_or_concat pre with hpre | ⟨L, q, hpre⟩
  · subst hpre
    rfl
  · subst hpre
    have hql : (L.concat q).getLast? = some q := by
      rw [List.concat_eq_append, List.getLast?_concat]
    have hqne : q ≠ [] := by
      refine hne q ?_
      rw [hpages, List.concat_eq_append]
      exact List.mem_append_left rest (List.mem_append_right L (List.mem_cons_self q []))
    cases hgl : q.getLast? with
    | none =>
      cases q with
      | nil => exact absurd rfl hqne
      | cons a as => rw [List.getLast?_eq_getLast _ (by simp)] at hgl; exact Option.noConfusion hgl
    | some it =>
      have hcid : lastId q = some it.id := by simp [lastId, hgl]
      have hdecomp : pages = L ++ q :: rest := by
        rw [hpages, List.concat_eq_append, List.append_assoc]
        rfl
      have hfind := findIdx_lastId it.id L q rest hcid (by rw [← hdecomp]; exact hid)
      rw [hql]
      show fetchPaged pages (lastId q) = _
      rw [hcid]
      unfold fetchPaged
      rw [hdecomp]
      dsimp only
      rw [hfind]
      have : (L.concat q).length = L.length + 1 := by
        rw [List.concat_eq_append]
        simp
      rw [this]

theorem get_all_succ (fetch : Option Nat → List OutputItem × Bool)
    (n : Nat) (after : Option Nat) (acc : List OutputItem) :
    get_all_output_items fetch (n + 1) after acc =
      (let page := fetch after
       let acc2 := acc ++ page.1
       if page.2 then
         match page.1.getLast? with
         | some it => get_all_output_items fetch n (some it.id) acc2
         | none => get_all_output_items fetch n after acc2
       else some acc2) := rfl

theorem paged_loop (pages : List (List OutputItem))
    (hne : ∀ p ∈ pages, p ≠ [])
    (hid : ((pages.flatten).map OutputItem.id).Nodup) :
    ∀ (rest pre : List (List OutputItem)) (acc : List OutputItem),
      pages = pre ++ rest →
      get_all_output_items (fetchPaged pages) (rest.length + 1)
        (pre.getLast?.bind lastId) acc = some (acc ++ rest.flatten) := by
  intro rest
  induction rest with
  | nil =>
    intro pre acc hpages
    have hf := fetchPaged_at_cursor pages pre [] hpages hne hid
    have hlen : pages.length = pre.length := by
      rw [hpages]
      simp
    have hgetD : pages.getD pre.length [] = [] := by
      rw [List.getD_eq_getElem?_getD, List.getElem?_eq_none (le_of_eq hlen),
        Option.getD_none]
    have hmore : decide (pre.length + 1 < pages.length) = false := by
      rw [hlen]
      simp
    rw [get_all_succ, hf]
    dsimp only
    rw [hgetD, hmore]
    simp
  | cons r rest' ih =>
    intro pre acc hpages
    have hf := fetchPaged_at_cursor pages pre (r :: rest') hpages hne hid
    have hgetD : pages.getD pre.length [] = r := by
      rw [hpages, List.getD_eq_getElem?_getD, List.getElem?_append_right le_rfl]
      simp
    have hlen : pages.length = pre.length + (rest'.length + 1) := by
      rw [hpages]
      simp
    cases rest' with
    | nil =>
      have hmore : decide (pre.length + 1 < pages.length) = false := by
        rw [hlen]
        simp
      rw [List.length_cons, get_all_succ, hf]
      dsimp only
      rw [hgetD, hmore]
      simp
    | cons r2 rest'' =>
      have hmore : decide (pre.length + 1 < pages.length) = true := by
        rw [hlen]
        simp only [List.length_cons, decide_eq_true_eq]
        omega
      have hrne : r ≠ [] := by
        refine hne r ?_
        rw [hpages]
        exact List.mem_append_right pre (List.mem_cons_self r (r2 :: rest''))
      cases hgl : r.getLast? with
      | none =>
        cases r with
        | nil => exact absurd rfl hrne
        | cons a as =>
          rw [List.getLast?_eq_getLast _ (by simp)] at hgl
          exact Option.noConfusion hgl
      | some it =>
        have ih' := ih (pre ++ [r]) (acc ++ r) (by rw [hpages]; simp)
        have hcursor : (pre ++ [r]).getLast?.bind lastId = some it.id := by
          rw [List.getLast?_concat]
          simp [lastId, hgl]
        rw [hcursor] at ih'
        rw [List.length_cons, get_all_succ, hf]
        dsimp only
        rw [hgetD, hmore]
        simp only [if_true, hgl]
        rw [ih']
        simp [List.flatten_cons, List.append_assoc]

/-- C4 amended: against a well-formed paginated service — non-empty pages,
globally distinct item ids, cursor = id of the last item of the previous
page, `has_more` false exactly after the final page — the loop terminates
(fuel `pages.length + 1` suffices) and collects exactly the concatenation
of all pages, wherever the page boundaries fall.  (A zero-item page with
`has_more` true does NOT stop the loop; see the counterexample.) -/
theorem pagination_collects_all (pages : List (List OutputItem))
    (hne : ∀ p ∈ pages, p ≠ [])
    (hid : ((pages.flatten).map OutputItem.id).Nodup) :
    get_all_output_items (fetchPaged pages) (pages.length + 1) none [] =
      some pages.flatten := by
  have h := paged_loop pages hne hid pages [] [] rfl
  simpa using h

/-- Witness for `pagination_collects_all`: three items split 2 + 1. -/
theorem pagination_collects_all_witness :
    get_all_output_items (fetchPaged [[⟨0⟩, ⟨1⟩], [⟨2⟩]]) 3 none [] =
      some [⟨0⟩, ⟨1⟩, ⟨2⟩] := by
  have h := pagination_collects_all [[⟨0⟩, ⟨1⟩], [⟨2⟩]] (by decide) (by decide)
  simpa using h
